import Mathlib

/-!
Shallow embedding of the DataConnection class (data-channel send/receive
core): serialization-mode dispatch, send-side chunking, the interval-driven
send loop, and receive-side chunk reassembly.  External collaborators
(`util.*` helpers, the JS runtime, the underlying RTCDataChannel) are passed
in as parameters; everything else is translated line-by-line from the source.
-/

namespace DCModel

/-- Byte sequences standing in for ArrayBuffer / Blob contents. -/
abbrev ByteSeq := List Nat

/-- Application-level values handed to `send` and delivered by `data` events. -/
inductive JsValue where
  | undefined
  | null
  | str (s : String)
  | num (n : Int)
  | blob (bytes : ByteSeq)
  deriving DecidableEq, Repr

/-- The DCSerializations enum: 'binary', 'binary-utf8', 'json', 'none'. -/
inductive Serialization where
  | binary
  | binaryUtf8
  | json
  | none
  deriving DecidableEq, Repr

/-- The `dataMeta` chunk envelope built in `send` and consumed in
`_handleDataMessage`: `{ id, type, size, totalParts, name?, mimeType?, index, data }`. -/
structure DataMeta where
  id : Nat
  type : String
  size : Nat
  totalParts : Nat
  name : Option String := Option.none
  mimeType : Option String := Option.none
  index : Nat
  data : ByteSeq
  deriving DecidableEq, Repr

/-- Entries of the outbound `this._sendBuffer`: a raw value (serialization
'none'), a JSON.stringify result ('json'), or a packed chunk envelope
(binary modes; we keep the envelope itself since `util.pack` is external). -/
inductive SendEntry where
  | raw (v : JsValue)
  | text (s : String)
  | chunk (m : DataMeta)
  deriving DecidableEq, Repr

/-- Receive-side record for one in-progress transfer, the object stored at
`this._receivedData[dataMeta.id]` (lines 133-141 of the source). -/
structure Transfer where
  size : Nat
  type : String
  name : Option String
  mimeType : Option String
  totalParts : Nat
  parts : List (Option ByteSeq)
  receivedParts : Nat
  deriving DecidableEq, Repr

/-- The reassembly table `this._receivedData`, a JS object keyed by transfer id. -/
abbrev ReceivedData := List (Nat × Transfer)

/-- JS object property read: `this._receivedData[id]`. -/
def rdLookup (rd : ReceivedData) (id : Nat) : Option Transfer :=
  match rd with
  | [] => Option.none
  | (k, v) :: rest => if k = id then Option.some v else rdLookup rest id

/-- JS object property write: replace the entry if the key exists, append otherwise. -/
def rdUpdate (rd : ReceivedData) (id : Nat) (t : Transfer) : ReceivedData :=
  match rd with
  | [] => [(id, t)]
  | (k, v) :: rest => if k = id then (k, t) :: rest else (k, v) :: rdUpdate rest id t

/-- JS `delete this._receivedData[id]`. -/
def rdErase (rd : ReceivedData) (id : Nat) : ReceivedData :=
  match rd with
  | [] => []
  | (k, v) :: rest => if k = id then rest else (k, v) :: rdErase rest id

/-- JS array element assignment `parts[i] = v` (line 144): an in-bounds write
replaces the slot; a write past the end extends the array, filling the gap
with undefined holes. -/
def jsArraySet (a : List (Option ByteSeq)) (i : Nat) (v : ByteSeq) : List (Option ByteSeq) :=
  if i < a.length then a.set i (Option.some v)
  else a ++ List.replicate (i - a.length) Option.none ++ [Option.some v]

/-- Modelled from the spec: `util.joinArrayBuffers` is not under src/; per
section 4.4 it concatenates the `parts` slices in index order into one
contiguous byte sequence (unset holes contribute nothing). -/
def joinArrayBuffers (parts : List (Option ByteSeq)) : ByteSeq :=
  (parts.map (fun p => p.getD [])).flatten

/-- Events the DataConnection emits.  Each constructor corresponds to one
emit site of the source: `data` for 'none' mode carrying `msg.data`
unmodified (line 118), `data` for 'json' mode carrying the JSON.parse result
(line 121), `data` for binary modes carrying the recombined buffer that is
handed to `util.unpack` (line 153), and `error` (line 163). -/
inductive MsgData where
  | text (s : String)
  | buffer (m : DataMeta)
  deriving DecidableEq, Repr

inductive DCEvent where
  | openEv
  | dataRawEv (d : MsgData)
  | dataEv (v : JsValue)
  | dataPackedEv (ab : ByteSeq)
  | errorEv (msg : String)
  deriving DecidableEq, Repr

/-- The slice of DataConnection state the send/receive core touches:
`this.open`, `this.serialization`, `this._sendBuffer`, `this._receivedData`,
and `this._queuedMessages` (inbound signaling messages stored because the
connection object did not exist yet, set in the constructor). -/
structure DC where
  isOpen : Bool
  serialization : Serialization
  sendBuffer : List SendEntry
  receivedData : ReceivedData
  queuedMessages : List JsValue
  deriving DecidableEq, Repr

/-- External collaborators used by `send`: `util.pack`, `JSON.stringify`,
`util.maxChunkSize`, `sizeof(dataMeta)` as computed on line 206 (the
envelope before `index` and `data` are attached), `util.randomId`, and the
JS-runtime queries `data.constructor.name`, `data.name`, and the
`instanceof Blob` mime-type lookup. -/
structure UtilEnv where
  pack : JsValue → ByteSeq
  stringify : JsValue → String
  maxChunkSize : Nat
  sizeofMeta : Nat
  randomId : Nat
  typeName : JsValue → String
  fileName : JsValue → Option String
  blobMime : JsValue → Option String

/-- The message of the error raised by `send` before the channel is open (line 165). -/
def notOpenMsg : String :=
  "Connection is not open. You should listen for the `open` event before sending messages."

/-- `Math.ceil(size / chunkSize)` under JS number semantics, as used on line
207 where `chunkSize` may be non-positive.  For a positive divisor this is
ceiling division; for a negative divisor the quotient is a non-positive
number rounded toward zero; for divisor 0 with positive size the result is
Infinity, so the slicing loop never terminates (`Option.none` marks that);
for 0 / 0 the result is NaN and the loop body never runs. -/
def jsCeilSlices (size : Nat) (chunkSize : Int) : Option Int :=
  if 0 < chunkSize then Option.some (((size + chunkSize.toNat - 1) / chunkSize.toNat : Nat) : Int)
  else if chunkSize < 0 then Option.some (-((size / chunkSize.natAbs : Nat) : Int))
  else if size = 0 then Option.some 0
  else Option.none

/-- `packedData.slice(sliceIndex * chunkSize, (sliceIndex + 1) * chunkSize)`
(line 212); `Blob.slice` clamps the end bound to the payload size. -/
def sliceAt (payload : ByteSeq) (chunkSize i : Nat) : ByteSeq :=
  (payload.drop (i * chunkSize)).take chunkSize

/-- Result of a `send` call: the updated connection plus the events emitted,
or divergence of the slicing loop (possible only when the computed
`chunkSize` is exactly 0, see `jsCeilSlices`). -/
inductive SendResult where
  | ok (dc : DC) (events : List DCEvent)
  | hang
  deriving DecidableEq, Repr

/-- `send(data)` (lines 161-222).  Not-open check, the undefined/null
short-circuit, direct enqueue for 'none' and 'json', and the binary chunking
path: `chunkSize = util.maxChunkSize - sizeof(dataMeta)`,
`numSlices = Math.ceil(size / chunkSize)`, then one packed envelope per
slice index is pushed onto the send buffer (the `blobToArrayBuffer`
callbacks fire in call order). -/
def send (u : UtilEnv) (dc : DC) (data : JsValue) : SendResult :=
  if dc.isOpen = false then
    SendResult.ok dc [DCEvent.errorEv notOpenMsg]
  else if data = JsValue.undefined ∨ data = JsValue.null then
    SendResult.ok dc []
  else if dc.serialization = Serialization.none then
    SendResult.ok { dc with sendBuffer := dc.sendBuffer ++ [SendEntry.raw data] } []
  else if dc.serialization = Serialization.json then
    SendResult.ok { dc with sendBuffer := dc.sendBuffer ++ [SendEntry.text (u.stringify data)] } []
  else
    let packedData := u.pack data
    let size := packedData.length
    let chunkSize : Int := (u.maxChunkSize : Int) - (u.sizeofMeta : Int)
    match jsCeilSlices size chunkSize with
    | Option.none => SendResult.hang
    | Option.some numSlices =>
      let chunks := (List.range numSlices.toNat).map (fun sliceIndex =>
        SendEntry.chunk {
          id := u.randomId
          type := u.typeName data
          size := size
          totalParts := numSlices.toNat
          name := if u.typeName data = "file" then u.fileName data else Option.none
          mimeType := u.blobMime data
          index := sliceIndex
          data := sliceAt packedData chunkSize.toNat sliceIndex })
      SendResult.ok { dc with sendBuffer := dc.sendBuffer ++ chunks } []

/-- The Transfer allocated on the first chunk bearing an unseen id
(lines 133-141): metadata copied from that chunk, a parts array of
`totalParts` undefined holes, `receivedParts` 0. -/
def freshTransfer (m : DataMeta) : Transfer :=
  { size := m.size
    type := m.type
    name := m.name
    mimeType := m.mimeType
    totalParts := m.totalParts
    parts := List.replicate m.totalParts Option.none
    receivedParts := 0 }

/-- The binary branch of `_handleDataMessage` (lines 127-154): look the id up
in the table, lazily create the Transfer on first sight, increment
`receivedParts` unconditionally, write `parts[index]`, and on
`receivedParts === totalParts` delete the entry and return the joined
buffer for decoding and emission. -/
def handleBinaryChunk (rd : ReceivedData) (m : DataMeta) : ReceivedData × Option ByteSeq :=
  let currData :=
    match rdLookup rd m.id with
    | Option.some t => t
    | Option.none => freshTransfer m
  let currData := { currData with receivedParts := currData.receivedParts + 1 }
  let currData := { currData with parts := jsArraySet currData.parts m.index m.data }
  if currData.receivedParts = currData.totalParts then
    (rdErase rd m.id, Option.some (joinArrayBuffers currData.parts))
  else
    (rdUpdate rd m.id currData, Option.none)

/-- Outcome of `_handleDataMessage`: the new table plus emitted events, or a
synchronous exception escaping the onmessage handler (nothing in the source
catches one). -/
inductive HandleResult where
  | ok (rd : ReceivedData) (events : List DCEvent)
  | thrown (e : String)
  deriving DecidableEq, Repr

/-- `_handleDataMessage(msg)` (lines 116-155).  `parse` models the external
`JSON.parse`: `Option.none` means it throws a SyntaxError, which nothing in
the handler catches.  Binary-mode messages arrive as packed envelopes; we
represent `util.unpack(msg.data)` by carrying the envelope itself, and a
non-buffer payload in a binary mode (where `unpack` would throw) also
surfaces as a thrown exception. -/
def handleDataMessage (parse : String → Option JsValue) (ser : Serialization)
    (rd : ReceivedData) (msg : MsgData) : HandleResult :=
  if ser = Serialization.none then
    HandleResult.ok rd [DCEvent.dataRawEv msg]
  else if ser = Serialization.json then
    match msg with
    | MsgData.text s =>
      match parse s with
      | Option.some v => HandleResult.ok rd [DCEvent.dataEv v]
      | Option.none => HandleResult.thrown "SyntaxError: JSON.parse failed"
    | MsgData.buffer _ => HandleResult.thrown "SyntaxError: JSON.parse failed"
  else
    match msg with
    | MsgData.buffer m =>
      match handleBinaryChunk rd m with
      | (rd2, Option.some ab) => HandleResult.ok rd2 [DCEvent.dataPackedEv ab]
      | (rd2, Option.none) => HandleResult.ok rd2 []
    | MsgData.text _ => HandleResult.thrown "unpack failed"

/-- One interval callback of `_startSendLoop` (lines 232-244): shift the
head of the buffer, attempt `this._dc.send`; on a throw push the entry back
— at the tail.  `sendOk` is whether the underlying channel accepted the
hand-off.  Returns the new buffer and what was emitted on the channel. -/
def sendLoopTick (sendBuffer : List SendEntry) (sendOk : Bool) :
    List SendEntry × List SendEntry :=
  match sendBuffer with
  | [] => ([], [])
  | currMsg :: rest =>
    if sendOk then (rest, [currMsg])
    else (rest ++ [currMsg], [])

/-- Run the drain loop over a schedule of channel outcomes, one per tick;
the interval is cleared (the loop stops) once the buffer empties.  Returns
the final buffer and the overall emission order on the channel. -/
def runSendLoop (sendBuffer : List SendEntry) (oks : List Bool) :
    List SendEntry × List SendEntry :=
  match oks with
  | [] => (sendBuffer, [])
  | ok :: rest =>
    match sendBuffer with
    | [] => ([], [])
    | b =>
      let t := sendLoopTick b ok
      let r := runSendLoop t.1 rest
      (r.1, t.2 ++ r.2)

/-- Fold the binary branch of `_handleDataMessage` over a list of inbound
envelopes in arrival order, collecting every completed (joined) payload. -/
def ingestAll (rd : ReceivedData) (l : List DataMeta) : ReceivedData × List ByteSeq :=
  match l with
  | [] => (rd, [])
  | m :: rest =>
    let s := handleBinaryChunk rd m
    let r := ingestAll s.1 rest
    (r.1, (match s.2 with
           | Option.some ab => [ab]
           | Option.none => []) ++ r.2)

/-- The chunk set `send` produces for one transfer: envelopes with indices
`0..n-1`, identical metadata, slice `i` carrying `sliceData i`. -/
def chunkEnvs (id0 : Nat) (ty : String) (sz n : Nat) (sliceData : Nat → ByteSeq) :
    List DataMeta :=
  (List.range n).map (fun i =>
    { id := id0, type := ty, size := sz, totalParts := n, index := i, data := sliceData i })

/-- Accumulated effect of the `parts[index] = data` writes of a run of
envelopes, starting from a given parts array. -/
def writeParts (ps : List (Option ByteSeq)) (l : List DataMeta) : List (Option ByteSeq) :=
  l.foldl (fun a m => jsArraySet a m.index m.data) ps

/-! ### Concrete fixtures used by closed evaluations -/

/-- A pending (not yet open) connection in json mode with empty buffers. -/
def dcPending : DC :=
  { isOpen := false, serialization := Serialization.json, sendBuffer := [],
    receivedData := [], queuedMessages := [] }

/-- An open connection in binary mode with empty buffers. -/
def dcOpenBinary : DC :=
  { isOpen := true, serialization := Serialization.binary, sendBuffer := [],
    receivedData := [], queuedMessages := [] }

/-- An external environment in which the serialized metadata footprint
exceeds the channel's size bound: chunkSize = 16 - 26 = -10. -/
def uMetaTooBig : UtilEnv :=
  { pack := fun _ => List.replicate 100 0
    stringify := fun _ => "null"
    maxChunkSize := 16
    sizeofMeta := 26
    randomId := 1
    typeName := fun _ => "ArrayBuffer"
    fileName := fun _ => Option.none
    blobMime := fun _ => Option.none }

/-- Same environment but with the footprint exactly equal to the bound, so
the computed chunkSize is 0. -/
def uMetaExact : UtilEnv := { uMetaTooBig with sizeofMeta := 16 }

/-- An environment where chunking is possible: channel bound 16, metadata
footprint 6, so the effective per-chunk capacity is 10; pack is the identity
on blob bytes. -/
def uChunkTest : UtilEnv :=
  { uMetaTooBig with
    sizeofMeta := 6
    pack := fun v => match v with
      | JsValue.blob bs => bs
      | _ => [] }

/-- The first chunk (index 0) of a two-chunk transfer, used as the
duplicate-delivery input. -/
def dupEnv : DataMeta :=
  { id := 7, type := "ArrayBuffer", size := 2, totalParts := 2, index := 0, data := [1] }

/-- An envelope whose index equals its totalParts (out of range). -/
def oobEnv : DataMeta :=
  { id := 3, type := "ArrayBuffer", size := 4, totalParts := 2, index := 2, data := [9] }

/-! ### Claim theorems -/

/-- Claim C1: the spec asserts that when the k-th enqueued entry's channel
send fails once and succeeds on the next attempt, the overall emission order
equals the enqueue order, the failed entry being returned to the queue.  The
source returns the failed entry to the *tail* of the queue: with two queued
entries where the first fails once and every later hand-off succeeds, the
channel emits them in reverse order (the entry is retained, but FIFO order
is lost). -/
theorem c1_retry_reorders_emission :
    runSendLoop [SendEntry.raw (JsValue.num 0), SendEntry.raw (JsValue.num 1)]
        [false, true, true] =
      ([], [SendEntry.raw (JsValue.num 1), SendEntry.raw (JsValue.num 0)]) ∧
    [SendEntry.raw (JsValue.num 1), SendEntry.raw (JsValue.num 0)] ≠
      [SendEntry.raw (JsValue.num 0), SendEntry.raw (JsValue.num 1)] :=
  ⟨rfl, by decide⟩

/-- Claim C2: the spec asserts duplicate-chunk idempotence (receivedParts
not incremented on a duplicate index, no early completion).  The source
increments receivedParts unconditionally: delivering the index-0 chunk of a
two-chunk transfer twice leaves receivedParts = 1 after the first delivery,
and the duplicate then *completes* the transfer, emitting a payload from
which part 1 is missing. -/
theorem c2_duplicate_increments_and_completes_early :
    (rdLookup (handleBinaryChunk [] dupEnv).1 7).map Transfer.receivedParts = Option.some 1 ∧
    (handleBinaryChunk [] dupEnv).2 = Option.none ∧
    handleBinaryChunk (handleBinaryChunk [] dupEnv).1 dupEnv = ([], Option.some [1]) :=
  ⟨rfl, rfl, rfl⟩

/-- Claim C4: the spec requires a ChunkSizeError when the effective chunk
size is non-positive.  The source performs no such check: with a negative
effective chunk size the binary send silently produces zero chunks and no
event of any kind, and with an effective chunk size of exactly 0 the slicing
loop never terminates (Math.ceil(size / 0) is Infinity). -/
theorem c4_no_chunk_size_error :
    send uMetaTooBig dcOpenBinary (JsValue.blob [1]) = SendResult.ok dcOpenBinary [] ∧
    send uMetaExact dcOpenBinary (JsValue.blob [1]) = SendResult.hang :=
  ⟨rfl, rfl⟩

/-- Claim C6: the spec requires an inbound chunk with index outside
[0, totalParts) to be rejected with a MalformedChunkError and the transfer
discarded.  The source validates nothing: an envelope with index =
totalParts = 2 is silently written into the reassembly table (the parts
array is extended to length 3 with a hole), receivedParts is counted, the
transfer is kept, and no error event is emitted. -/
theorem c6_out_of_range_index_written_silently :
    handleDataMessage (fun _ => Option.none) Serialization.binary [] (MsgData.buffer oobEnv) =
      HandleResult.ok
        [(3, { size := 4, type := "ArrayBuffer", name := Option.none, mimeType := Option.none,
               totalParts := 2, parts := [Option.none, Option.none, Option.some [9]],
               receivedParts := 1 })] [] :=
  rfl

/-- For a positive capacity C, `(S + C - 1) / C` is the ceiling of S / C:
its multiple by C is the least multiple of C that is at least S. -/
theorem ceil_mul_bounds (S C : Nat) (hC : 0 < C) :
    S ≤ ((S + C - 1) / C) * C ∧ ((S + C - 1) / C) * C < S + C := by
  have hdm : C * ((S + C - 1) / C) + (S + C - 1) % C = S + C - 1 :=
    Nat.div_add_mod (S + C - 1) C
  have hm : (S + C - 1) % C < C := Nat.mod_lt _ hC
  rw [Nat.mul_comm] at hdm
  generalize ((S + C - 1) / C) * C = x at hdm ⊢
  generalize (S + C - 1) % C = r at hdm hm
  omega

/-- Claim C3: in a binary-mode send with effective capacity
C = maxMessageSize - M positive, the source produces
totalParts = ceil(S / C) chunk envelopes with contiguous indices
0..totalParts-1, the chunk at index i carrying the payload slice
[i*C, min(S, (i+1)*C)), and the final chunk's payload length equals
S - C * (totalParts - 1).  The ceiling is witnessed by the bounds
S ≤ n*C < S + C. -/
theorem c3_binary_chunking (u : UtilEnv) (dc : DC) (data : JsValue)
    (hopen : dc.isOpen = true)
    (hdef : ¬(data = JsValue.undefined ∨ data = JsValue.null))
    (hser : dc.serialization = Serialization.binary ∨
            dc.serialization = Serialization.binaryUtf8)
    (hM : u.sizeofMeta < u.maxChunkSize) :
    ∃ chunks : List SendEntry,
      send u dc data = SendResult.ok { dc with sendBuffer := dc.sendBuffer ++ chunks } [] ∧
      (let S := (u.pack data).length
       let C := u.maxChunkSize - u.sizeofMeta
       let n := (S + C - 1) / C
       chunks.length = n ∧ S ≤ n * C ∧ n * C < S + C ∧
       (∀ i, i < n →
         chunks[i]? = Option.some (SendEntry.chunk
           { id := u.randomId, type := u.typeName data, size := S, totalParts := n,
             name := if u.typeName data = "file" then u.fileName data else Option.none,
             mimeType := u.blobMime data,
             index := i, data := ((u.pack data).drop (i * C)).take C })) ∧
       (∀ i, i < n →
         (((u.pack data).drop (i * C)).take C).length = min S ((i + 1) * C) - i * C) ∧
       (0 < S → 0 < n ∧
         (((u.pack data).drop ((n - 1) * C)).take C).length = S - C * (n - 1))) := by
  have hCpos : 0 < u.maxChunkSize - u.sizeofMeta := Nat.sub_pos_of_lt hM
  set S := (u.pack data).length with hSdef
  set C := u.maxChunkSize - u.sizeofMeta with hCdef
  set n := (S + C - 1) / C with hndef
  have hcast : ((u.maxChunkSize : Int) - (u.sizeofMeta : Int)) = (C : Int) := by
    rw [hCdef]; omega
  have hjs : jsCeilSlices S ((u.maxChunkSize : Int) - (u.sizeofMeta : Int)) =
      Option.some ((n : Nat) : Int) := by
    rw [hcast, jsCeilSlices, if_pos (by omega : (0 : Int) < (C : Int))]
    simp [hndef]
  have hbounds := ceil_mul_bounds S C hCpos
  rw [← hndef] at hbounds
  refine ⟨(List.range n).map (fun sliceIndex =>
      SendEntry.chunk
        { id := u.randomId, type := u.typeName data, size := S, totalParts := n,
          name := if u.typeName data = "file" then u.fileName data else Option.none,
          mimeType := u.blobMime data,
          index := sliceIndex, data := sliceAt (u.pack data) C sliceIndex }), ?_, ?_⟩
  · rcases hser with hb | hb <;>
      simp [send, hopen, hdef, hb, hjs, hSdef, sliceAt]
  · refine ⟨by simp, hbounds.1, hbounds.2, ?_, ?_, ?_⟩
    · intro i hi
      simp [List.getElem?_map, List.getElem?_range hi, sliceAt]
    · intro i hi
      have hx : (i + 1) * C = i * C + C := by ring
      simp only [List.length_take, List.length_drop, hSdef]
      generalize i * C = x at hx ⊢
      rw [hx]
      omega
    · intro hS
      have hn : 0 < n := by
        rcases Nat.eq_zero_or_pos n with h0 | h0
        · exfalso; rw [h0] at hbounds; omega
        · exact h0
      refine ⟨hn, ?_⟩
      have hx : (n - 1) * C = n * C - C := by
        rw [Nat.sub_mul, Nat.one_mul]
      have hy : C * (n - 1) = (n - 1) * C := Nat.mul_comm _ _
      simp only [List.length_take, List.length_drop, hSdef]
      rw [hy, hx]
      generalize hz : n * C = z at hbounds ⊢
      omega

/-- Witness for C3: maxMessageSize 16, metadata footprint 6, payload of 10
bytes: capacity C = 10, a single chunk of length 10. -/
theorem c3_witness :
    dcOpenBinary.isOpen = true ∧
    ¬(JsValue.blob (List.range 10) = JsValue.undefined ∨
       JsValue.blob (List.range 10) = JsValue.null) ∧
    (dcOpenBinary.serialization = Serialization.binary ∨
     dcOpenBinary.serialization = Serialization.binaryUtf8) ∧
    uChunkTest.sizeofMeta < uChunkTest.maxChunkSize ∧
    (∃ chunks : List SendEntry,
      send uChunkTest dcOpenBinary (JsValue.blob (List.range 10)) =
        SendResult.ok { dcOpenBinary with sendBuffer := dcOpenBinary.sendBuffer ++ chunks } [] ∧
      (let S := (uChunkTest.pack (JsValue.blob (List.range 10))).length
       let C := uChunkTest.maxChunkSize - uChunkTest.sizeofMeta
       let n := (S + C - 1) / C
       chunks.length = n ∧ S ≤ n * C ∧ n * C < S + C ∧
       (∀ i, i < n →
         chunks[i]? = Option.some (SendEntry.chunk
           { id := uChunkTest.randomId,
             type := uChunkTest.typeName (JsValue.blob (List.range 10)), size := S,
             totalParts := n,
             name := if uChunkTest.typeName (JsValue.blob (List.range 10)) = "file" then
               uChunkTest.fileName (JsValue.blob (List.range 10)) else Option.none,
             mimeType := uChunkTest.blobMime (JsValue.blob (List.range 10)),
             index := i,
             data := ((uChunkTest.pack (JsValue.blob (List.range 10))).drop (i * C)).take C })) ∧
       (∀ i, i < n →
         (((uChunkTest.pack (JsValue.blob (List.range 10))).drop (i * C)).take C).length =
           min S ((i + 1) * C) - i * C) ∧
       (0 < S → 0 < n ∧
         (((uChunkTest.pack (JsValue.blob (List.range 10))).drop ((n - 1) * C)).take C).length =
           S - C * (n - 1)))) :=
  ⟨rfl, by decide, Or.inl rfl, by decide,
    c3_binary_chunking uChunkTest dcOpenBinary (JsValue.blob (List.range 10)) rfl
      (by decide) (Or.inl rfl) (by decide)⟩

/-- Claim C7: calling send(value) while the connection is not yet open
raises an error event stating the connection is not open (it does not throw)
and returns with the connection state unchanged, so no value is enqueued on
the send queue.  Holds in every serialization mode. -/
theorem c7_send_before_open_errors (u : UtilEnv) (dc : DC) (data : JsValue)
    (h : dc.isOpen = false) :
    send u dc data = SendResult.ok dc [DCEvent.errorEv notOpenMsg] := by
  simp [send, h]

/-- Witness for C7 at a concrete pending connection. -/
theorem c7_witness :
    dcPending.isOpen = false ∧
    send uMetaTooBig dcPending (JsValue.str "hi") =
      SendResult.ok dcPending [DCEvent.errorEv notOpenMsg] :=
  ⟨rfl, c7_send_before_open_errors uMetaTooBig dcPending (JsValue.str "hi") rfl⟩

/-- Claim C8 as stated is false on the source: a value submitted via send
while the session is pending is *not* held in any buffer.  At this concrete
input the call returns the connection completely unchanged (its send buffer
and queued-messages buffer are still empty) and raises an error event
instead, so nothing can be transmitted for it once the channel opens. -/
theorem c8_counterexample :
    send uMetaTooBig dcPending (JsValue.str "hello") =
      SendResult.ok dcPending [DCEvent.errorEv notOpenMsg] ∧
    dcPending.sendBuffer = [] ∧ dcPending.queuedMessages = [] :=
  ⟨rfl, rfl, rfl⟩

/-- Claim C8 amended: a value submitted via send while the session is
pending is dropped with a not-open error event; the connection state is
unchanged, so draining the send buffer once the channel opens transmits
exactly what it would have transmitted had the call never happened.  (The
constructor's _queuedMessages buffer holds inbound messages received before
the connection object existed, not outbound sends.) -/
theorem c8_pending_send_never_buffered (u : UtilEnv) (dc dc2 : DC) (data : JsValue)
    (evs : List DCEvent) (oks : List Bool) (h : dc.isOpen = false)
    (hsend : send u dc data = SendResult.ok dc2 evs) :
    dc2 = dc ∧ evs = [DCEvent.errorEv notOpenMsg] ∧
    runSendLoop dc2.sendBuffer oks = runSendLoop dc.sendBuffer oks := by
  have hs : send u dc data = SendResult.ok dc [DCEvent.errorEv notOpenMsg] := by
    simp [send, h]
  rw [hs] at hsend
  injection hsend with h1 h2
  subst h1
  exact ⟨rfl, h2.symm, rfl⟩

/-- Witness for the amended C8 at a concrete pending connection. -/
theorem c8_witness :
    dcPending.isOpen = false ∧
    send uMetaTooBig dcPending (JsValue.str "hello") =
      SendResult.ok dcPending [DCEvent.errorEv notOpenMsg] ∧
    (dcPending = dcPending ∧
     [DCEvent.errorEv notOpenMsg] = [DCEvent.errorEv notOpenMsg] ∧
     runSendLoop dcPending.sendBuffer [true] = runSendLoop dcPending.sendBuffer [true]) :=
  ⟨rfl, rfl,
    c8_pending_send_never_buffered uMetaTooBig dcPending dcPending (JsValue.str "hello")
      [DCEvent.errorEv notOpenMsg] [true] rfl rfl⟩

/-- Claim C9: the spec requires a json-mode decode failure to be surfaced
asynchronously via the error event with the session left usable.  The
source's json branch calls JSON.parse with no try/catch: on malformed text
the handler throws synchronously, emitting neither an error event nor a data
event. -/
theorem c9_malformed_json_throws (parse : String → Option JsValue)
    (rd : ReceivedData) (s : String) (h : parse s = Option.none) :
    handleDataMessage parse Serialization.json rd (MsgData.text s) =
      HandleResult.thrown "SyntaxError: JSON.parse failed" := by
  simp [handleDataMessage, h]

/-- Witness for C9 on a concrete malformed text. -/
theorem c9_witness :
    (fun _ : String => (Option.none : Option JsValue)) "not json" = Option.none ∧
    handleDataMessage (fun _ => Option.none) Serialization.json [] (MsgData.text "not json") =
      HandleResult.thrown "SyntaxError: JSON.parse failed" :=
  ⟨rfl, c9_malformed_json_throws (fun _ => Option.none) [] "not json" rfl⟩

/-- Claim C10: on an open connection, send(undefined) and send(null) return
immediately: no entry is enqueued, nothing is transmitted, no event is
emitted, and the connection state is unchanged, in every serialization
mode. -/
theorem c10_null_undefined_silently_dropped (u : UtilEnv) (dc : DC) (data : JsValue)
    (hopen : dc.isOpen = true) (hdata : data = JsValue.undefined ∨ data = JsValue.null) :
    send u dc data = SendResult.ok dc [] := by
  simp [send, hopen, hdata]

/-- Witness for C10: sending null on a concrete open binary connection. -/
theorem c10_witness :
    dcOpenBinary.isOpen = true ∧
    (JsValue.null = JsValue.undefined ∨ JsValue.null = JsValue.null) ∧
    send uMetaTooBig dcOpenBinary JsValue.null = SendResult.ok dcOpenBinary [] :=
  ⟨rfl, Or.inr rfl,
    c10_null_undefined_silently_dropped uMetaTooBig dcOpenBinary JsValue.null rfl (Or.inr rfl)⟩

/-! ### Toward C5: order-independence of reassembly -/

theorem writeParts_nil (ps : List (Option ByteSeq)) : writeParts ps [] = ps := rfl

theorem writeParts_cons (ps : List (Option ByteSeq)) (m : DataMeta) (t : List DataMeta) :
    writeParts ps (m :: t) = writeParts (jsArraySet ps m.index m.data) t := rfl

theorem jsArraySet_length (a : List (Option ByteSeq)) (i : Nat) (v : ByteSeq)
    (h : i < a.length) : (jsArraySet a i v).length = a.length := by
  simp [jsArraySet, if_pos h]

theorem jsArraySet_getElem_self (a : List (Option ByteSeq)) (i : Nat) (v : ByteSeq)
    (h : i < a.length) : (jsArraySet a i v)[i]? = Option.some (Option.some v) := by
  rw [jsArraySet, if_pos h]
  exact List.getElem?_set_eq_of_lt _ h

theorem jsArraySet_getElem_ne (a : List (Option ByteSeq)) (i j : Nat) (v : ByteSeq)
    (h : i < a.length) (hne : i ≠ j) : (jsArraySet a i v)[j]? = a[j]? := by
  rw [jsArraySet, if_pos h]
  exact List.getElem?_set_ne hne

theorem writeParts_length (l : List DataMeta) (ps : List (Option ByteSeq))
    (h : ∀ m ∈ l, m.index < ps.length) : (writeParts ps l).length = ps.length := by
  induction l generalizing ps with
  | nil => rfl
  | cons m t ih =>
    have hm : m.index < ps.length := h m (List.mem_cons_self m t)
    rw [writeParts_cons,
      ih _ (fun m' hm' => by
        rw [jsArraySet_length _ _ _ hm]; exact h m' (List.mem_cons_of_mem _ hm')),
      jsArraySet_length _ _ _ hm]

/-- With pairwise-distinct in-bounds indices, the accumulated parts-array
writes of a chunk run are described slot by slot: slot i holds the data of
the (unique) envelope with index i, and is untouched otherwise. -/
theorem writeParts_getElem (l : List DataMeta) (ps : List (Option ByteSeq))
    (hidx : ∀ m ∈ l, m.index < ps.length)
    (hnd : (l.map DataMeta.index).Nodup) (i : Nat) :
    (writeParts ps l)[i]? =
      match l.find? (fun m => m.index == i) with
      | Option.some m => Option.some (Option.some m.data)
      | Option.none => ps[i]? := by
  induction l generalizing ps with
  | nil => rfl
  | cons m t ih =>
    have hm : m.index < ps.length := hidx m (List.mem_cons_self m t)
    have hlen : (jsArraySet ps m.index m.data).length = ps.length :=
      jsArraySet_length _ _ _ hm
    have hidx' : ∀ m' ∈ t, m'.index < (jsArraySet ps m.index m.data).length := by
      intro m' hm'; rw [hlen]; exact hidx m' (List.mem_cons_of_mem _ hm')
    have hnd2 : (m.index :: t.map DataMeta.index).Nodup := by simpa using hnd
    have hnd' : (t.map DataMeta.index).Nodup := hnd2.of_cons
    have hnotmem : m.index ∉ t.map DataMeta.index := (List.nodup_cons.mp hnd2).1
    rw [writeParts_cons, ih _ hidx' hnd']
    by_cases hcase : m.index = i
    · have hfind : (m :: t).find? (fun m' => m'.index == i) = Option.some m :=
        List.find?_cons_of_pos _ (by simpa using hcase)
      have htf : t.find? (fun m' => m'.index == i) = Option.none := by
        cases hft : t.find? (fun m' => m'.index == i) with
        | none => rfl
        | some m' =>
          exfalso
          have h1 : m'.index = i := by simpa using List.find?_some hft
          exact hnotmem (by
            rw [hcase, ← h1]
            exact List.mem_map_of_mem _ (List.mem_of_find?_eq_some hft))
      rw [hfind, htf]
      subst hcase
      exact jsArraySet_getElem_self _ _ _ hm
    · have hfind : (m :: t).find? (fun m' => m'.index == i) =
          t.find? (fun m' => m'.index == i) :=
        List.find?_cons_of_neg _ (by simpa using hcase)
      rw [hfind]
      cases hft : t.find? (fun m' => m'.index == i) with
      | some m' => rfl
      | none => exact jsArraySet_getElem_ne _ _ _ _ hm hcase

/-- Stepping the reassembler when the envelope's id is already in the table. -/
theorem handleBinaryChunk_found (rd : ReceivedData) (m : DataMeta) (T : Transfer)
    (hlook : rdLookup rd m.id = Option.some T) :
    handleBinaryChunk rd m =
      if T.receivedParts + 1 = T.totalParts then
        (rdErase rd m.id, Option.some (joinArrayBuffers (jsArraySet T.parts m.index m.data)))
      else
        (rdUpdate rd m.id
          { T with receivedParts := T.receivedParts + 1
                   parts := jsArraySet T.parts m.index m.data }, Option.none) := by
  simp only [handleBinaryChunk, hlook]

/-- Stepping the reassembler on the first envelope of an unseen id. -/
theorem handleBinaryChunk_fresh (rd : ReceivedData) (m : DataMeta)
    (hlook : rdLookup rd m.id = Option.none) :
    handleBinaryChunk rd m =
      if 1 = m.totalParts then
        (rdErase rd m.id, Option.some (joinArrayBuffers
          (jsArraySet (List.replicate m.totalParts Option.none) m.index m.data)))
      else
        (rdUpdate rd m.id
          { freshTransfer m with
              receivedParts := 1
              parts := jsArraySet (List.replicate m.totalParts Option.none) m.index m.data },
          Option.none) := by
  simp only [handleBinaryChunk, hlook, freshTransfer]

/-- Running the reassembler over the remaining envelopes of a transfer
already in the table: with receivedParts + (number remaining) = totalParts
and every index in range, the run completes exactly on the last envelope,
removes the table entry, and emits the join of the written parts array. -/
theorem ingestAll_run (id0 n : Nat) (l : List DataMeta) (T : Transfer)
    (hne : l ≠ [])
    (hl : ∀ m ∈ l, m.id = id0 ∧ m.totalParts = n ∧ m.index < n)
    (htot : T.totalParts = n) (hplen : T.parts.length = n)
    (hk : T.receivedParts + l.length = n) :
    ingestAll [(id0, T)] l = ([], [joinArrayBuffers (writeParts T.parts l)]) := by
  induction l generalizing T with
  | nil => exact absurd rfl hne
  | cons m t ih =>
    obtain ⟨hmid, hmtot, hmidx⟩ := hl m (List.mem_cons_self m t)
    have hlook : rdLookup [(id0, T)] m.id = Option.some T := by
      rw [hmid]; simp [rdLookup]
    have hstep := handleBinaryChunk_found [(id0, T)] m T hlook
    rw [writeParts_cons]
    by_cases ht : t = []
    · subst ht
      have hcomp : T.receivedParts + 1 = T.totalParts := by
        rw [htot]; simpa using hk
      rw [if_pos hcomp] at hstep
      have herase : rdErase [(id0, T)] m.id = [] := by
        rw [hmid]; simp [rdErase]
      simp only [ingestAll, hstep, herase]
      rfl
    · have hcomp : ¬(T.receivedParts + 1 = T.totalParts) := by
        rw [htot]
        have : 1 ≤ t.length := Nat.one_le_iff_ne_zero.mpr
          (fun h0 => ht (List.length_eq_zero.mp h0))
        simp only [List.length_cons] at hk
        omega
      rw [if_neg hcomp] at hstep
      have hupd : rdUpdate [(id0, T)] m.id
          { T with receivedParts := T.receivedParts + 1
                   parts := jsArraySet T.parts m.index m.data } =
          [(id0, { T with receivedParts := T.receivedParts + 1
                          parts := jsArraySet T.parts m.index m.data })] := by
        rw [hmid]; simp [rdUpdate]
      have hmlt : m.index < T.parts.length := by rw [hplen]; exact hmidx
      have hplen' : (jsArraySet T.parts m.index m.data).length = n := by
        rw [jsArraySet_length _ _ _ hmlt, hplen]
      have hk' : T.receivedParts + 1 + t.length = n := by
        simp only [List.length_cons] at hk; omega
      have hrec := ih
        { T with receivedParts := T.receivedParts + 1
                 parts := jsArraySet T.parts m.index m.data }
        ht (fun m' hm' => hl m' (List.mem_cons_of_mem _ hm')) htot hplen' hk'
      simp only [ingestAll, hstep, hupd, hrec, List.nil_append]

/-- Running the reassembler from an empty table over a complete chunk run
(every envelope sharing one id, totalParts n = run length, indices in
range): the first envelope allocates the transfer, the last completes it,
and the emitted payload is the join of the written parts array. -/
theorem ingestAll_fresh (id0 n : Nat) (l : List DataMeta)
    (hne : l ≠ [])
    (hl : ∀ m ∈ l, m.id = id0 ∧ m.totalParts = n ∧ m.index < n)
    (hlen : l.length = n) :
    ingestAll [] l =
      ([], [joinArrayBuffers (writeParts (List.replicate n Option.none) l)]) := by
  cases l with
  | nil => exact absurd rfl hne
  | cons m t =>
    obtain ⟨hmid, hmtot, hmidx⟩ := hl m (List.mem_cons_self m t)
    have hstep := handleBinaryChunk_fresh [] m rfl
    rw [hmtot] at hstep
    rw [writeParts_cons]
    by_cases ht : t = []
    · subst ht
      have h1 : (1 : Nat) = n := by simpa using hlen
      rw [if_pos h1] at hstep
      simp only [ingestAll, hstep, rdErase]
      rfl
    · have hlent : 1 ≤ t.length := Nat.one_le_iff_ne_zero.mpr
        (fun h0 => ht (List.length_eq_zero.mp h0))
      have hlen' : 1 + t.length = n := by
        simpa [List.length_cons, Nat.add_comm] using hlen
      rw [if_neg (by omega)] at hstep
      have hupd : rdUpdate [] m.id
          { freshTransfer m with
              receivedParts := 1
              parts := jsArraySet (List.replicate n Option.none) m.index m.data } =
          [(id0, { freshTransfer m with
              receivedParts := 1
              parts := jsArraySet (List.replicate n Option.none) m.index m.data })] := by
        rw [hmid]; rfl
      have hmlt : m.index < (List.replicate n (Option.none : Option ByteSeq)).length := by
        simpa using hmidx
      have hrec := ingestAll_run id0 n t
        { freshTransfer m with
            receivedParts := 1
            parts := jsArraySet (List.replicate n Option.none) m.index m.data }
        ht (fun m' hm' => hl m' (List.mem_cons_of_mem _ hm'))
        (by simp [freshTransfer, hmtot])
        (by simpa using jsArraySet_length _ _ _ hmlt)
        (by simpa using hlen')
      simp only [ingestAll, hstep, hupd, hrec, List.nil_append]

/-- Claim C5: for a complete chunk set of one transfer (distinct indices
covering [0, totalParts), identical metadata), delivering the set to the
reassembler in any permutation of arrival order yields the same result: the
table ends empty and exactly one payload is emitted, the concatenation of
the payload slices in index order. -/
theorem c5_reassembly_order_independent (id0 : Nat) (ty : String) (sz n : Nat)
    (sliceData : Nat → ByteSeq) (hn : 0 < n) (l : List DataMeta)
    (hperm : l.Perm (chunkEnvs id0 ty sz n sliceData)) :
    ingestAll [] l = ([], [((List.range n).map sliceData).flatten]) := by
  have hmem : ∀ m ∈ l, ∃ i, i < n ∧
      m = { id := id0, type := ty, size := sz, totalParts := n,
            index := i, data := sliceData i } := by
    intro m hm
    have hm2 : m ∈ chunkEnvs id0 ty sz n sliceData := hperm.mem_iff.mp hm
    simp only [chunkEnvs, List.mem_map, List.mem_range] at hm2
    obtain ⟨i, hi, hmeq⟩ := hm2
    exact ⟨i, hi, hmeq.symm⟩
  have hl : ∀ m ∈ l, m.id = id0 ∧ m.totalParts = n ∧ m.index < n := by
    intro m hm
    obtain ⟨i, hi, rfl⟩ := hmem m hm
    exact ⟨rfl, rfl, hi⟩
  have hlen : l.length = n := by
    rw [hperm.length_eq]; simp [chunkEnvs]
  have hne : l ≠ [] := by
    intro h0
    rw [h0] at hlen
    simp at hlen
    omega
  rw [ingestAll_fresh id0 n l hne hl hlen]
  have hnd : (l.map DataMeta.index).Nodup := by
    have hp := hperm.map DataMeta.index
    have hre : (chunkEnvs id0 ty sz n sliceData).map DataMeta.index = List.range n := by
      simp [chunkEnvs, List.map_map, Function.comp_def]
    rw [hre] at hp
    exact hp.nodup_iff.mpr (List.nodup_range n)
  have hW : writeParts (List.replicate n Option.none) l =
      (List.range n).map (fun i => Option.some (sliceData i)) := by
    apply List.ext_getElem?
    intro j
    have hidx : ∀ m ∈ l, m.index < (List.replicate n (Option.none : Option ByteSeq)).length := by
      intro m hm
      rw [List.length_replicate]
      exact (hl m hm).2.2
    rw [writeParts_getElem l _ hidx hnd j]
    by_cases hj : j < n
    · have hexists : ∃ m, m ∈ l ∧ (fun m => m.index == j) m = true := by
        refine ⟨{ id := id0, type := ty, size := sz, totalParts := n,
                  index := j, data := sliceData j }, ?_, by simp⟩
        apply hperm.mem_iff.mpr
        simp only [chunkEnvs, List.mem_map, List.mem_range]
        exact ⟨j, hj, rfl⟩
      have hsome : (l.find? (fun m => m.index == j)).isSome :=
        List.find?_isSome.mpr (by simpa using hexists)
      obtain ⟨m', hm'⟩ := Option.isSome_iff_exists.mp hsome
      have hpm : m'.index = j := by simpa using List.find?_some hm'
      obtain ⟨i, hi, hmeq⟩ := hmem m' (List.mem_of_find?_eq_some hm')
      rw [hm']
      subst hmeq
      simp only at hpm
      subst hpm
      simp [List.getElem?_map, List.getElem?_range hj]
    · have hnone : l.find? (fun m => m.index == j) = Option.none := by
        apply List.find?_eq_none.mpr
        intro m hm
        have := (hl m hm).2.2
        simp only [beq_iff_eq]
        omega
      rw [hnone]
      rw [List.getElem?_eq_none (by simpa using Nat.le_of_not_lt hj),
        List.getElem?_eq_none (by simpa using Nat.le_of_not_lt hj)]
  rw [hW]
  simp [joinArrayBuffers, List.map_map, Function.comp_def]

/-- The two chunks of a concrete two-part transfer, listed in reverse index
order. -/
def revPair : List DataMeta :=
  [{ id := 5, type := "ArrayBuffer", size := 2, totalParts := 2, index := 1, data := [11] },
   { id := 5, type := "ArrayBuffer", size := 2, totalParts := 2, index := 0, data := [10] }]

/-- Witness for C5: a two-chunk transfer delivered in reverse order still
reconstructs the slices in index order. -/
theorem c5_witness :
    (0 : Nat) < 2 ∧
    revPair.Perm (chunkEnvs 5 "ArrayBuffer" 2 2 (fun i => [i + 10])) ∧
    ingestAll [] revPair = ([], [((List.range 2).map (fun i => [i + 10])).flatten]) :=
  ⟨by decide, by decide,
    c5_reassembly_order_independent 5 "ArrayBuffer" 2 2 (fun i => [i + 10]) (by decide)
      revPair (by decide)⟩

end DCModel
